import Mathlib

/-!
Verification of the KuralDub transcript decoder and timestamp parser.

The program under study is a browser front-end; its core logic is
`handleSeek` (timestamp string → seek action on a media element) and
`parseScript` (raw AI transcript text → list of `ScriptLine` records,
stored into component state).  Both are shallowly embedded here over
`List Char`; JavaScript numbers are modelled as `Option ℚ` where `none`
plays the role of `NaN` (the only number-valued facts used by the claims
are exact decimal arithmetic and NaN-propagation, both of which the
rational model reproduces; `Infinity` literals and floating-point
rounding are outside the model).  The JavaScript regular expressions in
`parseScript` use no backtracking-sensitive features (each `+` class is
disjoint from the literal that follows it, and `\s*(.*)` always
succeeds), so they are embedded as direct leftmost-scan functions.
-/

namespace KuralDub

abbrev Str := List Char

/-- JavaScript whitespace (the `\s` class and `String.trim`): the common
members; exotic Unicode space characters are elided, no input in this
development contains them. -/
def wsChars : Str := (" \t\n\r\x0b\x0c\u00A0\u2028\u2029\uFEFF").toList

def isWS (c : Char) : Bool := wsChars.contains c

/-- JavaScript line terminators (what `.` in a regex refuses to match). -/
def ltChars : Str := ("\n\r\u2028\u2029").toList

def isLineTerm (c : Char) : Bool := ltChars.contains c

/-- `String.prototype.trim`. -/
def jsTrim (s : Str) : Str := ((s.dropWhile isWS).reverse.dropWhile isWS).reverse

/-- Numeric value of a digit run. -/
def digitsVal (ds : Str) : ℕ := ds.foldl (fun a c => 10 * a + (c.toNat - 48)) 0

/-- Value of a fractional digit run (the part after the decimal point). -/
def fracVal (ds : Str) : ℚ := (digitsVal ds : ℚ) / (10 : ℚ) ^ ds.length

/-- Exponent part of a decimal literal: `e`/`E`, optional sign, digits.
If the digits are missing the exponent is not part of the longest valid
prefix and is ignored, as in `parseFloat`. -/
def applyExp (q : ℚ) (s : Str) : ℚ :=
  match s with
  | c :: r =>
    if c = 'e' ∨ c = 'E' then
      match r with
      | '+' :: r2 =>
        if (r2.takeWhile Char.isDigit).isEmpty then q
        else q * (10 : ℚ) ^ digitsVal (r2.takeWhile Char.isDigit)
      | '-' :: r2 =>
        if (r2.takeWhile Char.isDigit).isEmpty then q
        else q / (10 : ℚ) ^ digitsVal (r2.takeWhile Char.isDigit)
      | r2 =>
        if (r2.takeWhile Char.isDigit).isEmpty then q
        else q * (10 : ℚ) ^ digitsVal (r2.takeWhile Char.isDigit)
    else q
  | [] => q

/-- Longest-prefix unsigned decimal literal, `parseFloat` style:
`digits [. digits] [exp]` or `. digits [exp]`; `none` when no prefix of
the input is a valid literal (JavaScript `NaN`). -/
def parseUnsignedFloat (s : Str) : Option ℚ :=
  let ds := s.takeWhile Char.isDigit
  let r1 := s.dropWhile Char.isDigit
  if ds.isEmpty then
    match r1 with
    | '.' :: r2 =>
      let fs := r2.takeWhile Char.isDigit
      let r3 := r2.dropWhile Char.isDigit
      if fs.isEmpty then none else some (applyExp (fracVal fs) r3)
    | _ => none
  else
    match r1 with
    | '.' :: r2 =>
      let fs := r2.takeWhile Char.isDigit
      let r3 := r2.dropWhile Char.isDigit
      some (applyExp ((digitsVal ds : ℚ) + fracVal fs) r3)
    | _ => some (applyExp (digitsVal ds : ℚ) r1)

/-- JavaScript `parseFloat` over exact rationals: skip leading
whitespace, optional sign, then the longest valid decimal-literal
prefix; `none` models `NaN`. -/
def parseFloatQ (s : Str) : Option ℚ :=
  match s.dropWhile isWS with
  | '+' :: r => parseUnsignedFloat r
  | '-' :: r => (parseUnsignedFloat r).map Neg.neg
  | r => parseUnsignedFloat r

/-- `String.prototype.split` at the colon character. -/
def splitColon : Str → List Str
  | [] => [[]]
  | c :: cs =>
    if c = ':' then [] :: splitColon cs
    else
      match splitColon cs with
      | h :: t => (c :: h) :: t
      | [] => [[c]]

/-- Multiplication by a constant with NaN propagation. -/
def jsMul (a : Option ℚ) (k : ℚ) : Option ℚ := a.map (fun x => x * k)

/-- Addition with NaN propagation. -/
def jsAdd (a b : Option ℚ) : Option ℚ :=
  match a, b with
  | some x, some y => some (x + y)
  | _, _ => none

/-- The `seconds` value computed by `handleSeek`: split on `:`, map
`parseFloat`, then combine according to the number of parts; the
variable is initialised to `0` and left untouched when the part count is
not 1, 2 or 3. -/
def seekSeconds (time : Str) : Option ℚ :=
  match (splitColon time).map parseFloatQ with
  | [a] => a
  | [a, b] => jsAdd (jsMul a 60) b
  | [a, b, c] => jsAdd (jsAdd (jsMul a 3600) (jsMul b 60)) c
  | _ => some 0

/-- The effect `handleSeek` has on a present media element: either no
action at all, or one `currentTime := t` assignment followed by
`play()` (whose own rejection the source discards with an empty
`catch`). -/
inductive MediaAction : Type where
  | noop : MediaAction
  | seekAndPlay : ℚ → MediaAction
deriving DecidableEq

/-- `handleSeek` from the source: seek and play exactly when the
computed `seconds` is not NaN. -/
def handleSeek (time : Str) : MediaAction :=
  match seekSeconds time with
  | some t => MediaAction.seekAndPlay t
  | none => MediaAction.noop

/-- The characters matched by the `[\d:.]` class of the time-range
regular expressions (`\d` is exactly the ASCII digits). -/
def timeChars : Str := ['0', '1', '2', '3', '4', '5', '6', '7', '8', '9', ':', '.']

def isTimeChar (c : Char) : Bool := decide (c ∈ timeChars)

/-- Attempt the pattern `\[([\d:.]+) <sep> ([\d:.]+)\]` (with a space on
each side of the one-character separator `sep`) at the head of the
string, returning the two capture groups.  Greedy `+` needs no
backtracking here: the class is disjoint from the space and from `]`. -/
def matchRangeHere (sep : Char) (s : Str) : Option (Str × Str) :=
  match s with
  | [] => none
  | c :: rest =>
    if c = '[' then
      let t1 := rest.takeWhile isTimeChar
      if t1 = [] then none
      else
        match rest.dropWhile isTimeChar with
        | s1 :: d :: s2 :: rest2 =>
          if s1 = ' ' ∧ d = sep ∧ s2 = ' ' then
            let t2 := rest2.takeWhile isTimeChar
            if t2 = [] then none
            else
              match rest2.dropWhile isTimeChar with
              | rb :: _ => if rb = ']' then some (t1, t2) else none
              | [] => none
          else none
        | _ => none
    else none

/-- Leftmost match of the bracketed time-range pattern: scan start
positions left to right, as `String.prototype.match` does. -/
def searchRange (sep : Char) : Str → Option (Str × Str)
  | [] => none
  | c :: cs =>
    match matchRangeHere sep (c :: cs) with
    | some r => some r
    | none => searchRange sep cs

def enDash : Char := '–'

/-- `timeMatch` from `parseScript`: the en-dash pattern first, the ASCII
hyphen pattern only when the first finds nothing (`||` on match
results). -/
def timeMatch (block : Str) : Option (Str × Str) :=
  match searchRange enDash block with
  | some r => some r
  | none => searchRange '-' block

/-- Case-insensitive literal prefix test (the `/i` flag; the label
patterns are ASCII so ASCII lowering is the relevant folding). -/
def ciStarts (pat s : Str) : Bool :=
  decide ((s.take pat.length).map Char.toLower = pat.map Char.toLower)

/-- The capture of `\s*(.*)`: greedy whitespace skip, then everything up
to the next line terminator. -/
def fieldValue (r : Str) : Str :=
  (r.dropWhile isWS).takeWhile (fun c => !isLineTerm c)

/-- Attempt `/<pat>\s*(.*)/i` at the head of the string. -/
def matchFieldHere (pat s : Str) : Option Str :=
  if ciStarts pat s then some (fieldValue (s.drop pat.length)) else none

/-- Leftmost match of a labelled-field pattern, returning the capture. -/
def searchField (pat : Str) : Str → Option Str
  | [] => none
  | c :: cs =>
    match matchFieldHere pat (c :: cs) with
    | some r => some r
    | none => searchField pat cs

def speakerLab : Str := ("Speaker:").toList
def meaningLab : Str := ("Original Meaning:").toList
def emotionLab : Str := ("Emotion:").toList
def actionLab : Str := ("Action Description:").toList
def sLab : Str := ("S:").toList
def tLab : Str := ("T:").toList
def lLab : Str := ("L:").toList

structure ScriptLineVersions : Type where
  spoken : Str
  tanglish : Str
  syncShort : Str
deriving DecidableEq

/-- The `ScriptLine` record of `types.ts`.  `confidenceScore` is an
optional field that `parseScript` never sets. -/
structure ScriptLine : Type where
  person : Str
  startTime : Str
  endTime : Str
  dialogue : Str
  versions : ScriptLineVersions
  emotion : Str
  confidenceScore : Option ℚ
  actionDescription : Str
  originalMeaning : Str
deriving DecidableEq

def unknownPerson : Str := ("Unknown").toList
def neutralEmotion : Str := ("Neutral").toList

/-- `m ? m[1].trim() : deflt` from the source. -/
def fieldOr (deflt : Str) (m : Option Str) : Str :=
  match m with
  | some v => jsTrim v
  | none => deflt

/-- The record literal pushed by `parseScript` for a block whose time
match produced captures `t1`, `t2`. -/
def extractLine (block t1 t2 : Str) : ScriptLine :=
  { person := fieldOr unknownPerson (searchField speakerLab block)
    startTime := jsTrim t1
    endTime := jsTrim t2
    dialogue := fieldOr [] (searchField sLab block)
    versions :=
      { spoken := fieldOr [] (searchField sLab block)
        tanglish := fieldOr [] (searchField tLab block)
        syncShort := fieldOr [] (searchField lLab block) }
    emotion := fieldOr neutralEmotion (searchField emotionLab block)
    confidenceScore := none
    actionDescription := fieldOr [] (searchField actionLab block)
    originalMeaning := fieldOr [] (searchField meaningLab block) }

/-- The per-block loop step inside `parseScript`: skip a whitespace-only
block, skip a block with no recognised time range, otherwise push one
record. -/
def mkLine (block : Str) : Option ScriptLine :=
  if jsTrim block = [] then none
  else
    match timeMatch block with
    | some (t1, t2) => some (extractLine block t1 t2)
    | none => none

def dashes : Str := ("---").toList

/-- Whether the string contains `---` as a contiguous substring. -/
def hasDash3 : Str → Bool
  | [] => false
  | c :: cs => decide ((c :: cs).take 3 = dashes) || hasDash3 cs

/-- `String.prototype.split` at the three-dash delimiter: left-to-right, non-overlapping
(the first arm, which the equation compiler prefers, consumes a
delimiter occurrence; structural recursion keeps every use of this
function kernel-computable). -/
def splitDashes : Str → List Str
  | '-' :: '-' :: '-' :: rest => [] :: splitDashes rest
  | c :: cs =>
    match splitDashes cs with
    | h :: t => (c :: h) :: t
    | [] => [[c]]
  | [] => [[]]

def parseBlocks (bs : List Str) : List ScriptLine := bs.filterMap mkLine

/-- The list of records `parseScript` recovers from a raw text. -/
def parseScriptLines (text : Str) : List ScriptLine :=
  parseBlocks (splitDashes text)

/-- The diagnostic `parseScript` hands to `setError` on total failure
(the apostrophe is spelled via its code point). -/
def parseErrorMsg : Str :=
  ("Parsing Error: AI output didn").toList ++ [Char.ofNat 39] ++
    ("t follow the 20+ timestamp granular format.").toList

/-- The two pieces of component state `parseScript` can write. -/
structure AppState : Type where
  script : Option (List ScriptLine)
  errMsg : Option Str
deriving DecidableEq

/-- `parseScript` from the source: recover the records, then either
report a diagnostic (zero records; `setScript` is not called) or store
the new list (`setError` is not called). -/
def parseScript (text : Str) (st : AppState) : AppState :=
  let lines := parseScriptLines text
  if lines = [] then { st with errMsg := some parseErrorMsg }
  else { st with script := some lines }

/-- A block is clean when `---` occurs neither inside it nor
overlapping its right edge (equivalently: the block neither contains
`---` nor ends in `-`); splitting on `---` then recovers such blocks
exactly. -/
def noDash3 (b : Str) : Prop := hasDash3 (b ++ ['-', '-']) = false

instance (b : Str) : Decidable (noDash3 b) := by
  unfold noDash3
  infer_instance

/-- Raw text whose entry blocks are each terminated by the `---`
delimiter, as the upstream generator is instructed to emit. -/
def joinT (bs : List Str) : Str :=
  match bs with
  | [] => []
  | b :: rest => b ++ dashes ++ joinT rest

/-- A concrete previously stored record, used to exhibit a decode that
does not replace the stored script. -/
def sampleLine : ScriptLine :=
  { person := ("Kumar").toList
    startTime := ("0:00").toList
    endTime := ("0:05").toList
    dialogue := []
    versions := { spoken := [], tanglish := [], syncShort := [] }
    emotion := neutralEmotion
    confidenceScore := none
    actionDescription := []
    originalMeaning := [] }

lemma splitColon_ne_nil (s : Str) : splitColon s ≠ [] := by
  induction s with
  | nil => simp [splitColon]
  | cons c cs ih =>
    by_cases h : c = ':'
    · simp [splitColon, h]
    · simp only [splitColon, h, if_false]
      cases hs : splitColon cs with
      | nil => exact absurd hs ih
      | cons hd tl => simp

lemma splitColon_length (s : Str) : (splitColon s).length = s.count ':' + 1 := by
  induction s with
  | nil => simp [splitColon]
  | cons c cs ih =>
    by_cases h : c = ':'
    · subst h
      simp [splitColon, ih, List.count_cons]
    · simp only [splitColon, h, if_false]
      cases hs : splitColon cs with
      | nil => exact absurd hs (splitColon_ne_nil cs)
      | cons hd tl =>
        rw [hs] at ih
        simp only [List.length_cons] at ih ⊢
        rw [List.count_cons]
        simp [h, ih]

lemma splitColon_of_no_colon (s : Str) (h : s.count ':' = 0) : splitColon s = [s] := by
  induction s with
  | nil => simp [splitColon]
  | cons c cs ih =>
    rw [List.count_cons] at h
    have hc : c ≠ ':' := by
      intro hc; subst hc; simp at h
    have hcs : cs.count ':' = 0 := by
      rcases Nat.eq_zero_of_add_eq_zero_right h with h'
      exact h'
    simp only [splitColon, hc, if_false, ih hcs]

lemma seekSeconds_eval_one (s p : Str) (h : splitColon s = [p]) :
    seekSeconds s = parseFloatQ p := by
  unfold seekSeconds
  rw [h]
  rfl

lemma seekSeconds_eval_two (s p q : Str) (h : splitColon s = [p, q]) :
    seekSeconds s = jsAdd (jsMul (parseFloatQ p) 60) (parseFloatQ q) := by
  unfold seekSeconds
  rw [h]
  rfl

lemma seekSeconds_eval_three (s p q r : Str) (h : splitColon s = [p, q, r]) :
    seekSeconds s =
      jsAdd (jsAdd (jsMul (parseFloatQ p) 3600) (jsMul (parseFloatQ q) 60))
        (parseFloatQ r) := by
  unfold seekSeconds
  rw [h]
  rfl

lemma seekEx90 : seekSeconds (("90").toList) = some 90 := by
  rw [seekSeconds_eval_one _ (("90").toList) (by decide)]
  have h : parseFloatQ (("90").toList) = some ((90 : ℕ) : ℚ) := rfl
  rw [h]
  norm_num

lemma seekEx130 : seekSeconds (("1:30").toList) = some 90 := by
  rw [seekSeconds_eval_two _ (("1").toList) (("30").toList) (by decide)]
  have h1 : parseFloatQ (("1").toList) = some ((1 : ℕ) : ℚ) := rfl
  have h2 : parseFloatQ (("30").toList) = some ((30 : ℕ) : ℚ) := rfl
  rw [h1, h2]
  norm_num [jsAdd, jsMul]

lemma seekEx10130 : seekSeconds (("1:01:30").toList) = some 3690 := by
  rw [seekSeconds_eval_three _ (("1").toList) (("01").toList) (("30").toList) (by decide)]
  have h1 : parseFloatQ (("1").toList) = some ((1 : ℕ) : ℚ) := rfl
  have h2 : parseFloatQ (("01").toList) = some ((1 : ℕ) : ℚ) := rfl
  have h3 : parseFloatQ (("30").toList) = some ((30 : ℕ) : ℚ) := rfl
  rw [h1, h2, h3]
  norm_num [jsAdd, jsMul]

lemma seekEx125 : seekSeconds (("12.5").toList) = some (25 / 2) := by
  rw [seekSeconds_eval_one _ (("12.5").toList) (by decide)]
  have h : parseFloatQ (("12.5").toList) =
      some (((12 : ℕ) : ℚ) + ((5 : ℕ) : ℚ) / (10 : ℚ) ^ (1 : ℕ)) := rfl
  rw [h]
  norm_num

/-- C1: for every timestamp string, the conversion in `handleSeek` returns:
with zero colons, `parseFloat` of the whole string; with one colon,
minutes × 60 + seconds; with two colons, hours × 3600 + minutes × 60 +
seconds — each component `parseFloat`ed, NaN (modelled `none`)
propagating so that the result is invalid exactly when the total is
not-a-number; and concretely `"90"` → 90, `"1:30"` → 90, `"1:01:30"` →
3690, `"12.5"` → 12.5, `"abc"` → invalid, `""` → invalid. -/
theorem claim_C1 :
    (∀ s : Str, s.count ':' = 0 → seekSeconds s = parseFloatQ s) ∧
    (∀ s p q : Str, splitColon s = [p, q] →
      seekSeconds s = jsAdd (jsMul (parseFloatQ p) 60) (parseFloatQ q)) ∧
    (∀ s p q r : Str, splitColon s = [p, q, r] →
      seekSeconds s =
        jsAdd (jsAdd (jsMul (parseFloatQ p) 3600) (jsMul (parseFloatQ q) 60))
          (parseFloatQ r)) ∧
    seekSeconds (("90").toList) = some 90 ∧
    seekSeconds (("1:30").toList) = some 90 ∧
    seekSeconds (("1:01:30").toList) = some 3690 ∧
    seekSeconds (("12.5").toList) = some (25 / 2) ∧
    seekSeconds (("abc").toList) = none ∧
    seekSeconds (("").toList) = none := by
  refine ⟨?_, ?_, ?_, seekEx90, seekEx130, seekEx10130, seekEx125, by rfl, by rfl⟩
  · intro s h
    exact seekSeconds_eval_one s s (splitColon_of_no_colon s h)
  · intro s p q h
    exact seekSeconds_eval_two s p q h
  · intro s p q r h
    exact seekSeconds_eval_three s p q r h

theorem claim_C1_witness :
    splitColon (("1:30").toList) = [("1").toList, ("30").toList] ∧
    seekSeconds (("1:30").toList) =
      jsAdd (jsMul (parseFloatQ (("1").toList)) 60) (parseFloatQ (("30").toList)) :=
  ⟨by decide, claim_C1.2.1 (("1:30").toList) (("1").toList) (("30").toList) (by decide)⟩

/-- C8: whenever the computed total is NaN, `handleSeek` performs no
seek or transport action on the media element — a silent no-op (the
model is a total function, so no failure is thrown or surfaced). -/
theorem claim_C8 :
    ∀ time : Str, seekSeconds time = none → handleSeek time = MediaAction.noop := by
  intro t h
  unfold handleSeek
  rw [h]

theorem claim_C8_witness :
    seekSeconds (("abc").toList) = none ∧
    handleSeek (("abc").toList) = MediaAction.noop :=
  ⟨by decide, claim_C8 (("abc").toList) (by decide)⟩

/-- C10: a timestamp with three or more colons (four or more
colon-separated parts) is not treated as invalid: the computed offset
stays 0, so the media position is set to 0 and playback started. -/
theorem claim_C10 :
    ∀ time : Str, 3 ≤ time.count ':' →
      seekSeconds time = some 0 ∧ handleSeek time = MediaAction.seekAndPlay 0 := by
  intro t h
  have hlen : 4 ≤ (splitColon t).length := by
    rw [splitColon_length]; omega
  have hsec : seekSeconds t = some 0 := by
    rcases hp : splitColon t with _ | ⟨a, _ | ⟨b, _ | ⟨c, _ | ⟨d, r⟩⟩⟩⟩ <;>
      rw [hp] at hlen <;> simp only [List.length_cons, List.length_nil] at hlen
    · omega
    · omega
    · omega
    · omega
    · simp [seekSeconds, hp]
  refine ⟨hsec, ?_⟩
  unfold handleSeek
  rw [hsec]

theorem claim_C10_witness :
    3 ≤ (("1:2:3:4").toList).count ':' ∧
    handleSeek (("1:2:3:4").toList) = MediaAction.seekAndPlay 0 :=
  ⟨by decide, (claim_C10 (("1:2:3:4").toList) (by decide)).2⟩

lemma dropWhile_of_all_neg {p : Char → Bool} :
    ∀ {l : Str}, (∀ c ∈ l, p c = false) → l.dropWhile p = l := by
  intro l h
  cases l with
  | nil => rfl
  | cons c cs =>
    rw [List.dropWhile_cons, h c (List.mem_cons_self c cs)]
    simp

lemma jsTrim_of_all_neg {l : Str} (h : ∀ c ∈ l, isWS c = false) : jsTrim l = l := by
  unfold jsTrim
  rw [dropWhile_of_all_neg h, dropWhile_of_all_neg, List.reverse_reverse]
  intro c hc
  exact h c (List.mem_reverse.mp hc)

lemma jsTrim_ne_nil_of_mem {b : Str} {c : Char} (hc : c ∈ b) (hw : isWS c = false) :
    jsTrim b ≠ [] := by
  intro h
  unfold jsTrim at h
  rw [List.reverse_eq_nil_iff, List.dropWhile_eq_nil_iff] at h
  have hsplit := List.takeWhile_append_dropWhile isWS b
  rw [← hsplit] at hc
  rcases List.mem_append.mp hc with h1 | h2
  · have := List.mem_takeWhile_imp h1
    simp [hw] at this
  · have := h c (List.mem_reverse.mpr h2)
    simp [hw] at this

lemma isTimeChar_not_ws {c : Char} (h : isTimeChar c = true) : isWS c = false := by
  have hm : c ∈ timeChars := of_decide_eq_true h
  simp only [timeChars, List.mem_cons, List.not_mem_nil, or_false] at hm
  rcases hm with rfl | rfl | rfl | rfl | rfl | rfl | rfl | rfl | rfl | rfl | rfl | rfl <;>
    decide

lemma matchRangeHere_ne_lbrack {sep c : Char} {cs : Str} (hc : c ≠ '[') :
    matchRangeHere sep (c :: cs) = none := by
  simp only [matchRangeHere]
  rw [if_neg hc]

lemma matchRangeHere_parts {sep : Char} {s t1 t2 : Str}
    (h : matchRangeHere sep s = some (t1, t2)) :
    t1 ≠ [] ∧ t2 ≠ [] ∧ (∀ c ∈ t1, isTimeChar c = true) ∧
      (∀ c ∈ t2, isTimeChar c = true) := by
  cases s with
  | nil => simp [matchRangeHere] at h
  | cons c rest =>
    simp only [matchRangeHere] at h
    by_cases hc : c = '['
    · rw [if_pos hc] at h
      by_cases h1 : rest.takeWhile isTimeChar = []
      · rw [if_pos h1] at h
        exact absurd h (by simp)
      · rw [if_neg h1] at h
        rcases hd : rest.dropWhile isTimeChar with _ | ⟨s1, _ | ⟨d, _ | ⟨s2, rest2⟩⟩⟩ <;>
          rw [hd] at h <;> dsimp only at h
        · exact absurd h (by simp)
        · exact absurd h (by simp)
        · exact absurd h (by simp)
        · by_cases hsep : s1 = ' ' ∧ d = sep ∧ s2 = ' '
          · rw [if_pos hsep] at h
            by_cases h2 : rest2.takeWhile isTimeChar = []
            · rw [if_pos h2] at h
              exact absurd h (by simp)
            · rw [if_neg h2] at h
              rcases hd2 : rest2.dropWhile isTimeChar with _ | ⟨rb, tail⟩ <;>
                rw [hd2] at h <;> dsimp only at h
              · exact absurd h (by simp)
              · by_cases hrb : rb = ']'
                · rw [if_pos hrb] at h
                  injection h with h'
                  injection h' with ha hb
                  subst ha; subst hb
                  exact ⟨h1, h2, fun c hc => List.mem_takeWhile_imp hc,
                    fun c hc => List.mem_takeWhile_imp hc⟩
                · rw [if_neg hrb] at h
                  exact absurd h (by simp)
          · rw [if_neg hsep] at h
            exact absurd h (by simp)
    · rw [if_neg hc] at h
      exact absurd h (by simp)

lemma searchRange_lbrack {sep : Char} :
    ∀ {s : Str} {r : Str × Str}, searchRange sep s = some r → '[' ∈ s := by
  intro s
  induction s with
  | nil => intro r h; simp [searchRange] at h
  | cons c cs ih =>
    intro r h
    by_cases hc : c = '['
    · rw [hc]; exact List.mem_cons_self _ _
    · simp only [searchRange, matchRangeHere_ne_lbrack hc] at h
      exact List.mem_cons_of_mem _ (ih h)

lemma searchRange_parts {sep : Char} :
    ∀ {s t1 t2 : Str}, searchRange sep s = some (t1, t2) →
      t1 ≠ [] ∧ t2 ≠ [] ∧ (∀ c ∈ t1, isTimeChar c = true) ∧
        (∀ c ∈ t2, isTimeChar c = true) := by
  intro s
  induction s with
  | nil => intro t1 t2 h; simp [searchRange] at h
  | cons c cs ih =>
    intro t1 t2 h
    simp only [searchRange] at h
    cases hm : matchRangeHere sep (c :: cs) with
    | some r =>
      rw [hm] at h
      injection h with h'
      subst h'
      exact matchRangeHere_parts hm
    | none =>
      rw [hm] at h
      exact ih h

lemma timeMatch_lbrack {b : Str} {r : Str × Str} (h : timeMatch b = some r) :
    '[' ∈ b := by
  unfold timeMatch at h
  cases he : searchRange enDash b with
  | some r' => exact searchRange_lbrack he
  | none =>
    rw [he] at h
    exact searchRange_lbrack h

lemma timeMatch_parts {b t1 t2 : Str} (h : timeMatch b = some (t1, t2)) :
    t1 ≠ [] ∧ t2 ≠ [] ∧ (∀ c ∈ t1, isTimeChar c = true) ∧
      (∀ c ∈ t2, isTimeChar c = true) := by
  unfold timeMatch at h
  cases he : searchRange enDash b with
  | some r' =>
    rw [he] at h
    injection h with h'
    subst h'
    exact searchRange_parts he
  | none =>
    rw [he] at h
    exact searchRange_parts h

lemma timeMatch_nonblank {b : Str} {r : Str × Str} (h : timeMatch b = some r) :
    jsTrim b ≠ [] :=
  jsTrim_ne_nil_of_mem (timeMatch_lbrack h) (by decide)

lemma mkLine_of_timeMatch {b t1 t2 : Str} (h : timeMatch b = some (t1, t2)) :
    mkLine b = some (extractLine b t1 t2) := by
  unfold mkLine
  rw [if_neg (timeMatch_nonblank h), h]

lemma mkLine_none_of_no_time {b : Str} (h : timeMatch b = none) :
    mkLine b = none := by
  unfold mkLine
  by_cases hb : jsTrim b = []
  · rw [if_pos hb]
  · rw [if_neg hb, h]

/-- C4: `parseScript` is a total function (never throws); whenever zero
records are recovered the recovered sequence is empty and the call
produces the non-empty diagnostic via `setError`, and whenever at least
one record is recovered no diagnostic is produced (the error state is
left untouched). -/
theorem claim_C4 :
    ∀ (text : Str) (st : AppState),
      (parseScriptLines text = [] →
        (parseScript text st).errMsg = some parseErrorMsg ∧ parseErrorMsg ≠ []) ∧
      (parseScriptLines text ≠ [] → (parseScript text st).errMsg = st.errMsg) := by
  intro text st
  constructor
  · intro h
    refine ⟨?_, by decide⟩
    unfold parseScript
    rw [if_pos h]
  · intro h
    unfold parseScript
    rw [if_neg h]

theorem claim_C4_witness :
    (parseScript (("just some narrative prose with no markers").toList)
          (AppState.mk none none)).errMsg = some parseErrorMsg ∧
      parseErrorMsg ≠ [] :=
  (claim_C4 (("just some narrative prose with no markers").toList)
      (AppState.mk none none)).1 (by decide)

/-- C9 is false on the code: when a decode recovers zero lines,
`parseScript` calls `setError` but not `setScript`, so the previously
held sequence survives instead of being replaced by the (empty)
recovered sequence. -/
theorem claim_C9_counterexample :
    (parseScript (("just some narrative prose with no markers").toList)
          (AppState.mk (some [sampleLine]) none)).script ≠
      some (parseScriptLines (("just some narrative prose with no markers").toList)) := by
  decide

/-- C9 (amended): a decode recovering at least one line fully replaces
any previously held script sequence; a decode recovering zero lines
leaves the stored sequence untouched (only the diagnostic is written). -/
theorem claim_C9_amended :
    ∀ (text : Str) (st : AppState),
      (parseScriptLines text ≠ [] →
        (parseScript text st).script = some (parseScriptLines text)) ∧
      (parseScriptLines text = [] → (parseScript text st).script = st.script) := by
  intro text st
  constructor
  · intro h
    unfold parseScript
    rw [if_neg h]
  · intro h
    unfold parseScript
    rw [if_pos h]

theorem claim_C9_witness :
    (parseScript (("[0:00 – 0:05]\nS: hi\n---").toList)
          (AppState.mk (some [sampleLine]) none)).script =
      some (parseScriptLines (("[0:00 – 0:05]\nS: hi\n---").toList)) :=
  (claim_C9_amended (("[0:00 – 0:05]\nS: hi\n---").toList)
      (AppState.mk (some [sampleLine]) none)).1 (by decide)

/-- C6: a block with a recognised time range and none of the labelled
fields still yields one ScriptLine, with every non-timestamp field at
its documented default: speaker `"Unknown"`, emotion `"Neutral"`, and
empty strings everywhere else. -/
theorem claim_C6 :
    ∀ b t1 t2 : Str, timeMatch b = some (t1, t2) →
      searchField speakerLab b = none → searchField meaningLab b = none →
      searchField emotionLab b = none → searchField actionLab b = none →
      searchField sLab b = none → searchField tLab b = none →
      searchField lLab b = none →
      mkLine b = some
        { person := unknownPerson
          startTime := jsTrim t1
          endTime := jsTrim t2
          dialogue := []
          versions := { spoken := [], tanglish := [], syncShort := [] }
          emotion := neutralEmotion
          confidenceScore := none
          actionDescription := []
          originalMeaning := [] } := by
  intro b t1 t2 ht hsp hm he ha hs htg hl
  rw [mkLine_of_timeMatch ht]
  unfold extractLine
  rw [hsp, hm, he, ha, hs, htg, hl]
  rfl

lemma searchField_first {pat : Str} (hpat : pat ≠ []) :
    ∀ (s : Str) (i : ℕ), (∀ j, j < i → ciStarts pat (s.drop j) = false) →
      ciStarts pat (s.drop i) = true →
      searchField pat s = some (fieldValue (s.drop (i + pat.length))) := by
  intro s
  induction s with
  | nil =>
    intro i hlt hi
    exfalso
    rw [List.drop_nil] at hi
    have h2 := of_decide_eq_true hi
    rw [List.take_nil, List.map_nil] at h2
    exact hpat (List.map_eq_nil_iff.mp h2.symm)
  | cons c cs ih =>
    intro i hlt hi
    cases i with
    | zero =>
      rw [List.drop_zero] at hi
      simp only [searchField, matchFieldHere, hi, if_true]
      rw [Nat.zero_add]
    | succ i' =>
      have h0 : ciStarts pat (c :: cs) = false := by
        have := hlt 0 (Nat.succ_pos i')
        rwa [List.drop_zero] at this
      have hmf : matchFieldHere pat (c :: cs) = none := by
        simp [matchFieldHere, h0]
      simp only [searchField, hmf]
      have hstep : (c :: cs).drop (i' + 1 + pat.length) = cs.drop (i' + pat.length) := by
        have : i' + 1 + pat.length = (i' + pat.length) + 1 := by omega
        rw [this, List.drop_succ_cons]
      rw [hstep]
      refine ih i' (fun j hj => ?_) ?_
      · have := hlt (j + 1) (by omega)
        rwa [List.drop_succ_cons] at this
      · have : (c :: cs).drop (i' + 1) = cs.drop i' := List.drop_succ_cons
        rwa [this] at hi

/-- C3 is false on the code: in the one-line block `"THIS: x"` the only
occurrence of `S:` is a substring of the word `THIS:`, neither
line-leading (the block starts with `T` and has no line terminators) nor
standalone, yet the S-field extraction matches it and captures `"x"`. -/
theorem claim_C3_counterexample :
    (∀ c ∈ (("THIS: x").toList), isLineTerm c = false) ∧
    ciStarts sLab (("THIS: x").toList) = false ∧
    searchField sLab (("THIS: x").toList) = some (("x").toList) := by
  refine ⟨by decide, by decide, by decide⟩

/-- C3 (amended): extraction of the single-character fields `S`, `T`,
`L` matches the first position in the block — scanning left to right,
case-insensitively — at which the label letter is immediately followed
by a colon, with no line-start anchoring: an occurrence inside a longer
word, anywhere in the block, is matched, and the value captured is the
rest of that line after the colon and any whitespace. -/
theorem claim_C3_amended :
    (∀ (b : Str) (i : ℕ),
      (∀ j, j < i → ciStarts sLab (b.drop j) = false) →
      ciStarts sLab (b.drop i) = true →
      searchField sLab b = some (fieldValue (b.drop (i + 2)))) ∧
    (∀ (b : Str) (i : ℕ),
      (∀ j, j < i → ciStarts tLab (b.drop j) = false) →
      ciStarts tLab (b.drop i) = true →
      searchField tLab b = some (fieldValue (b.drop (i + 2)))) ∧
    (∀ (b : Str) (i : ℕ),
      (∀ j, j < i → ciStarts lLab (b.drop j) = false) →
      ciStarts lLab (b.drop i) = true →
      searchField lLab b = some (fieldValue (b.drop (i + 2)))) := by
  refine ⟨?_, ?_, ?_⟩ <;> intro b i h1 h2 <;>
    exact searchField_first (by decide) b i h1 h2

theorem claim_C3_witness :
    (∀ j, j < 3 → ciStarts sLab ((("THIS: x").toList).drop j) = false) ∧
    ciStarts sLab ((("THIS: x").toList).drop 3) = true ∧
    searchField sLab (("THIS: x").toList) =
      some (fieldValue ((("THIS: x").toList).drop (3 + 2))) :=
  ⟨by decide, by decide,
    claim_C3_amended.1 (("THIS: x").toList) 3 (by decide) (by decide)⟩

theorem claim_C6_witness :
    mkLine (("[0:00 – 0:05]").toList) = some
      { person := unknownPerson
        startTime := jsTrim (("0:00").toList)
        endTime := jsTrim (("0:05").toList)
        dialogue := []
        versions := { spoken := [], tanglish := [], syncShort := [] }
        emotion := neutralEmotion
        confidenceScore := none
        actionDescription := []
        originalMeaning := [] } :=
  claim_C6 (("[0:00 – 0:05]").toList) (("0:00").toList) (("0:05").toList)
    (by decide) (by decide) (by decide) (by decide) (by decide) (by decide)
    (by decide) (by decide)

lemma splitDashes_cons_ne (c : Char) (cs : Str) (h : ¬ (c :: cs).take 3 = dashes) :
    splitDashes (c :: cs) =
      match splitDashes cs with
      | hd :: tl => (c :: hd) :: tl
      | [] => [[c]] := by
  rw [splitDashes.eq_def]
  split
  · rename_i rest heq
    exfalso
    apply h
    rw [heq]
    rfl
  · rename_i c' cs' heq hne
    injection hne with e1 e2
    subst e1; subst e2
    rfl
  · rename_i heq
    exact absurd heq (by simp)

lemma noDash3_cons {c : Char} {cs : Str} (h : noDash3 (c :: cs)) :
    ¬ ((c :: cs) ++ ['-', '-']).take 3 = dashes ∧ noDash3 cs := by
  unfold noDash3 at h ⊢
  rw [List.cons_append] at h
  rw [hasDash3] at h
  simp only [Bool.or_eq_false_iff, decide_eq_false_iff_not] at h
  exact ⟨by rw [List.cons_append]; exact h.1, h.2⟩

lemma take3_append (b t : Str) (hb : b ≠ []) :
    (b ++ dashes ++ t).take 3 = (b ++ ['-', '-']).take 3 := by
  have hshape : b ++ dashes ++ t = (b ++ ['-', '-']) ++ ('-' :: t) := by
    show b ++ dashes ++ t = _
    rw [List.append_assoc, List.append_assoc]
    rfl
  rw [hshape, List.take_append_of_le_length]
  rw [List.length_append]
  cases b with
  | nil => exact absurd rfl hb
  | cons x xs => simp only [List.length_cons, List.length_nil]; omega

lemma splitDashes_block (b t : Str) (hb : noDash3 b) :
    splitDashes (b ++ dashes ++ t) = b :: splitDashes t := by
  induction b with
  | nil =>
    simp only [List.nil_append]
    rfl
  | cons c cs ih =>
    obtain ⟨h1, h2⟩ := noDash3_cons hb
    have hne : ¬ (c :: (cs ++ dashes ++ t)).take 3 = dashes := by
      have he := take3_append (c :: cs) t (by simp)
      simp only [List.cons_append] at he h1 ⊢
      rw [he]
      exact h1
    rw [List.cons_append, List.cons_append, splitDashes_cons_ne c _ hne, ih h2]

lemma splitDashes_joinT (bs : List Str) (h : ∀ b ∈ bs, noDash3 b) :
    splitDashes (joinT bs) = bs ++ [[]] := by
  induction bs with
  | nil => rfl
  | cons b rest ih =>
    show splitDashes (b ++ dashes ++ joinT rest) = _
    rw [splitDashes_block b _ (h b (List.mem_cons_self b rest)),
      ih (fun x hx => h x (List.mem_cons_of_mem b hx))]
    rfl

lemma mkLine_nil : mkLine [] = none := rfl

lemma mkLine_isSome_of_timeMatch {b : Str} (h : (timeMatch b).isSome) :
    (mkLine b).isSome := by
  obtain ⟨⟨t1, t2⟩, ht⟩ := Option.isSome_iff_exists.mp h
  rw [mkLine_of_timeMatch ht]
  rfl

lemma filterMap_all_some {bs : List Str} (h : ∀ b ∈ bs, (mkLine b).isSome) :
    (List.filterMap mkLine bs).map some = bs.map mkLine ∧
    (List.filterMap mkLine bs).length = bs.length := by
  induction bs with
  | nil => simp
  | cons b rest ih =>
    obtain ⟨l, hl⟩ := Option.isSome_iff_exists.mp (h b (List.mem_cons_self b rest))
    obtain ⟨ih1, ih2⟩ := ih (fun x hx => h x (List.mem_cons_of_mem b hx))
    rw [List.filterMap_cons, hl]
    constructor
    · rw [List.map_cons, List.map_cons, ih1, hl]
    · rw [List.length_cons, List.length_cons, ih2]

/-- C2: for well-formed input made of N delimiter-terminated blocks,
each clean of stray `---` overlaps and each carrying a recognisable
time range, `parseScript` recovers exactly N ScriptLine records and the
i-th record is decoded from the i-th block — input order is preserved
(the result is never re-sorted, whatever the timestamps are), whichever
optional labelled fields each block carries. -/
theorem claim_C2 :
    ∀ bs : List Str, (∀ b ∈ bs, noDash3 b ∧ (timeMatch b).isSome) →
      (parseScriptLines (joinT bs)).map some = bs.map mkLine ∧
      (parseScriptLines (joinT bs)).length = bs.length := by
  intro bs h
  unfold parseScriptLines parseBlocks
  rw [splitDashes_joinT bs (fun b hb => (h b hb).1), List.filterMap_append]
  have hnil : List.filterMap mkLine [[]] = [] := by
    simp [List.filterMap_cons, mkLine_nil]
  rw [hnil, List.append_nil]
  exact filterMap_all_some (fun b hb => mkLine_isSome_of_timeMatch (h b hb).2)

theorem claim_C2_witness :
    (parseScriptLines
        (joinT [("[0:10 \u2013 0:12]\nS: later").toList,
          ("[0:00 \u2013 0:02]\nS: earlier").toList])).map some =
      [("[0:10 \u2013 0:12]\nS: later").toList,
        ("[0:00 \u2013 0:02]\nS: earlier").toList].map mkLine ∧
    (parseScriptLines
        (joinT [("[0:10 \u2013 0:12]\nS: later").toList,
          ("[0:00 \u2013 0:02]\nS: earlier").toList])).length = 2 :=
  claim_C2
    [("[0:10 \u2013 0:12]\nS: later").toList, ("[0:00 \u2013 0:02]\nS: earlier").toList]
    (by decide)

/-- C5: every emitted ScriptLine has non-empty `startTime` and
`endTime`; and a block with no recognisable bracketed time range
contributes no record and leaves the records extracted from the
neighbouring blocks unchanged. -/
theorem claim_C5 :
    (∀ (text : Str) (l : ScriptLine), l ∈ parseScriptLines text →
      l.startTime ≠ [] ∧ l.endTime ≠ []) ∧
    (∀ (bs1 bs2 : List Str) (b : Str),
      (∀ x ∈ bs1 ++ b :: bs2, noDash3 x) → timeMatch b = none →
      parseScriptLines (joinT (bs1 ++ b :: bs2)) =
        parseScriptLines (joinT (bs1 ++ bs2))) := by
  constructor
  · intro text l hl
    unfold parseScriptLines parseBlocks at hl
    obtain ⟨b, _, hmb⟩ := List.mem_filterMap.mp hl
    unfold mkLine at hmb
    by_cases hblank : jsTrim b = []
    · rw [if_pos hblank] at hmb
      exact absurd hmb (by simp)
    · rw [if_neg hblank] at hmb
      cases ht : timeMatch b with
      | none =>
        rw [ht] at hmb
        exact absurd hmb (by simp)
      | some r =>
        obtain ⟨t1, t2⟩ := r
        rw [ht] at hmb
        injection hmb with hmb
        obtain ⟨h1, h2, h3, h4⟩ := timeMatch_parts ht
        subst hmb
        unfold extractLine
        constructor
        · show jsTrim t1 ≠ []
          rw [jsTrim_of_all_neg (fun c hc => isTimeChar_not_ws (h3 c hc))]
          exact h1
        · show jsTrim t2 ≠ []
          rw [jsTrim_of_all_neg (fun c hc => isTimeChar_not_ws (h4 c hc))]
          exact h2
  · intro bs1 bs2 b hall hb
    have h1 : ∀ x ∈ bs1 ++ bs2, noDash3 x := by
      intro x hx
      apply hall
      rcases List.mem_append.mp hx with h | h
      · exact List.mem_append.mpr (Or.inl h)
      · exact List.mem_append.mpr (Or.inr (List.mem_cons_of_mem b h))
    unfold parseScriptLines parseBlocks
    rw [splitDashes_joinT _ hall, splitDashes_joinT _ h1]
    simp [List.filterMap_append, List.filterMap_cons, mkLine_none_of_no_time hb]

theorem claim_C5_witness :
    ((parseScriptLines (("[0:00 \u2013 0:05]").toList) ≠ [] ∧
        ∀ l ∈ parseScriptLines (("[0:00 \u2013 0:05]").toList),
          l.startTime ≠ [] ∧ l.endTime ≠ []) ∧
      parseScriptLines
          (joinT [("[0:00 \u2013 0:01]\nS: a").toList, ("no range here").toList,
            ("[0:02 \u2013 0:03]\nS: b").toList]) =
        parseScriptLines
          (joinT [("[0:00 \u2013 0:01]\nS: a").toList,
            ("[0:02 \u2013 0:03]\nS: b").toList])) :=
  ⟨⟨by decide,
      fun l hl => claim_C5.1 (("[0:00 \u2013 0:05]").toList) l hl⟩,
    claim_C5.2 [("[0:00 \u2013 0:01]\nS: a").toList]
      [("[0:02 \u2013 0:03]\nS: b").toList] (("no range here").toList)
      (by decide) (by decide)⟩

lemma takeWhile_app {p : Char → Bool} :
    ∀ (l1 : Str) (c : Char) (t : Str), (∀ x ∈ l1, p x = true) → p c = false →
      (l1 ++ c :: t).takeWhile p = l1 ∧ (l1 ++ c :: t).dropWhile p = c :: t := by
  intro l1
  induction l1 with
  | nil =>
    intro c t _ h2
    rw [List.nil_append]
    exact ⟨by rw [List.takeWhile_cons, h2]; simp, by rw [List.dropWhile_cons, h2]; simp⟩
  | cons a l ih =>
    intro c t h1 h2
    have ha : p a = true := h1 a (List.mem_cons_self a l)
    obtain ⟨ht, hd⟩ := ih c t (fun x hx => h1 x (List.mem_cons_of_mem a hx)) h2
    rw [List.cons_append]
    constructor
    · rw [List.takeWhile_cons, ha]
      simp only [if_true, ht]
    · rw [List.dropWhile_cons, ha]
      simp only [if_true, hd]

lemma matchRangeHere_range (sep : Char) (t1 t2 rest : Str)
    (h1 : t1 ≠ []) (h2 : t2 ≠ []) (ht1 : ∀ c ∈ t1, isTimeChar c = true)
    (ht2 : ∀ c ∈ t2, isTimeChar c = true) :
    matchRangeHere sep ('[' :: (t1 ++ ' ' :: sep :: ' ' :: (t2 ++ ']' :: rest))) =
      some (t1, t2) := by
  obtain ⟨htk1, hdr1⟩ :=
    takeWhile_app t1 ' ' (sep :: ' ' :: (t2 ++ ']' :: rest)) ht1 (by decide)
  obtain ⟨htk2, hdr2⟩ := takeWhile_app t2 ']' rest ht2 (by decide)
  simp [matchRangeHere, htk1, hdr1, htk2, hdr2, h1, h2]

lemma searchRange_cons_some {sep c : Char} {cs : Str} {r : Str × Str}
    (h : matchRangeHere sep (c :: cs) = some r) : searchRange sep (c :: cs) = some r := by
  simp only [searchRange, h]

lemma matchRangeHere_mem_sep {sep : Char} {s : Str} {r : Str × Str}
    (h : matchRangeHere sep s = some r) : sep ∈ s := by
  cases s with
  | nil => simp [matchRangeHere] at h
  | cons c rest =>
    simp only [matchRangeHere] at h
    by_cases hc : c = '['
    · rw [if_pos hc] at h
      by_cases hA : rest.takeWhile isTimeChar = []
      · rw [if_pos hA] at h
        exact absurd h (by simp)
      · rw [if_neg hA] at h
        rcases hd : rest.dropWhile isTimeChar with _ | ⟨s1, _ | ⟨d, _ | ⟨s2, rest2⟩⟩⟩ <;>
          rw [hd] at h <;> dsimp only at h
        · exact absurd h (by simp)
        · exact absurd h (by simp)
        · exact absurd h (by simp)
        · by_cases hsep : s1 = ' ' ∧ d = sep ∧ s2 = ' '
          · obtain ⟨-, he2, -⟩ := hsep
            subst he2
            have hdm : d ∈ rest.dropWhile isTimeChar := by
              rw [hd]
              exact List.mem_cons_of_mem s1 (List.mem_cons_self d (s2 :: rest2))
            exact List.mem_cons_of_mem c ((List.dropWhile_sublist isTimeChar).mem hdm)
          · rw [if_neg hsep] at h
            exact absurd h (by simp)
    · rw [if_neg hc] at h
      exact absurd h (by simp)

lemma searchRange_none_of_no_sep {sep : Char} :
    ∀ {s : Str}, sep ∉ s → searchRange sep s = none := by
  intro s
  induction s with
  | nil => intro _; rfl
  | cons c cs ih =>
    intro h
    cases hm : matchRangeHere sep (c :: cs) with
    | some r => exact absurd (matchRangeHere_mem_sep hm) h
    | none =>
      simp only [searchRange, hm]
      exact ih (fun hx => h (List.mem_cons_of_mem c hx))

lemma ciStarts_false_of_head {p0 : Char} {pr : Str} {c : Char} {s : Str}
    (hc : c.toLower ≠ p0.toLower) : ciStarts (p0 :: pr) (c :: s) = false := by
  unfold ciStarts
  rw [decide_eq_false_iff_not]
  intro heq
  rw [List.length_cons, List.take_succ_cons, List.map_cons, List.map_cons] at heq
  injection heq with e1 _
  exact hc e1

lemma searchField_skip (p0 : Char) (pr : Str) :
    ∀ (pre rest : Str), (∀ c ∈ pre, c.toLower ≠ p0.toLower) →
      searchField (p0 :: pr) (pre ++ rest) = searchField (p0 :: pr) rest := by
  intro pre
  induction pre with
  | nil => intro rest _; rw [List.nil_append]
  | cons c pre2 ih =>
    intro rest h
    have hcs : ciStarts (p0 :: pr) (c :: (pre2 ++ rest)) = false :=
      ciStarts_false_of_head (h c (List.mem_cons_self c pre2))
    have hmf : matchFieldHere (p0 :: pr) (c :: (pre2 ++ rest)) = none := by
      simp [matchFieldHere, hcs]
    rw [List.cons_append]
    simp only [searchField, hmf]
    exact ih rest (fun x hx => h x (List.mem_cons_of_mem c hx))

lemma isTimeChar_facts {c : Char} (h : isTimeChar c = true) :
    c.toLower ≠ ('S').toLower ∧ c.toLower ≠ ('O').toLower ∧
    c.toLower ≠ ('E').toLower ∧ c.toLower ≠ ('A').toLower ∧
    c.toLower ≠ ('T').toLower ∧ c.toLower ≠ ('L').toLower := by
  have hm : c ∈ timeChars := of_decide_eq_true h
  simp only [timeChars, List.mem_cons, List.not_mem_nil, or_false] at hm
  rcases hm with rfl | rfl | rfl | rfl | rfl | rfl | rfl | rfl | rfl | rfl | rfl | rfl <;>
    decide

lemma searchField_block (p0 : Char) (pr : Str) (sep : Char)
    (hsep : sep.toLower ≠ p0.toLower)
    (hbr : ('[').toLower ≠ p0.toLower ∧ (' ').toLower ≠ p0.toLower ∧
      (']').toLower ≠ p0.toLower)
    (htc : ∀ c : Char, isTimeChar c = true → c.toLower ≠ p0.toLower)
    (t1 t2 rest : Str) (ht1 : ∀ c ∈ t1, isTimeChar c = true)
    (ht2 : ∀ c ∈ t2, isTimeChar c = true) :
    searchField (p0 :: pr) ('[' :: (t1 ++ ' ' :: sep :: ' ' :: (t2 ++ ']' :: rest))) =
      searchField (p0 :: pr) rest := by
  have hshape : '[' :: (t1 ++ ' ' :: sep :: ' ' :: (t2 ++ ']' :: rest)) =
      ('[' :: (t1 ++ ' ' :: sep :: ' ' :: (t2 ++ [']']))) ++ rest := by
    simp [List.append_assoc, List.cons_append]
  rw [hshape]
  apply searchField_skip
  intro c hc
  simp only [List.mem_cons, List.mem_append, List.mem_singleton, List.not_mem_nil,
    or_false] at hc
  rcases hc with rfl | hc
  · exact hbr.1
  rcases hc with hc | hc
  · exact htc c (ht1 c hc)
  rcases hc with rfl | hc
  · exact hbr.2.1
  rcases hc with rfl | hc
  · exact hsep
  rcases hc with rfl | hc
  · exact hbr.2.1
  rcases hc with hc | rfl
  · exact htc c (ht2 c hc)
  · exact hbr.2.2

lemma enDash_not_mem_block (t1 t2 rest : Str)
    (ht1 : ∀ c ∈ t1, isTimeChar c = true) (ht2 : ∀ c ∈ t2, isTimeChar c = true)
    (hrest : enDash ∉ rest) :
    enDash ∉ ('[' :: (t1 ++ ' ' :: '-' :: ' ' :: (t2 ++ ']' :: rest))) := by
  intro hmem
  simp only [List.mem_cons, List.mem_append] at hmem
  rcases hmem with h | h
  · exact absurd h (by decide)
  rcases h with h | h
  · exact absurd (ht1 enDash h) (by decide)
  rcases h with h | h
  · exact absurd h (by decide)
  rcases h with h | h
  · exact absurd h (by decide)
  rcases h with h | h
  · exact absurd h (by decide)
  rcases h with h | h
  · exact absurd (ht2 enDash h) (by decide)
  rcases h with h | h
  · exact absurd h (by decide)
  · exact hrest h

/-- C7 is false as stated: when the bracketed range itself sits inside a
captured field value (here the `S:` line), the captured dialogue text
retains the dash glyph, so the two forms decode to different
ScriptLines even though both decode and agree on the timestamps. -/
theorem claim_C7_counterexample :
    (mkLine (("S: [0 \u2013 0]").toList)).isSome ∧
    (mkLine (("S: [0 - 0]").toList)).isSome ∧
    (mkLine (("S: [0 \u2013 0]").toList)).map ScriptLine.startTime =
      (mkLine (("S: [0 - 0]").toList)).map ScriptLine.startTime ∧
    mkLine (("S: [0 \u2013 0]").toList) ≠ mkLine (("S: [0 - 0]").toList) := by
  exact ⟨by decide, by decide, by decide, by decide⟩

/-- C7 (amended): the en-dash pattern is tried first and the hyphen
pattern only on its failure; and the hyphen form of a time range
decodes to exactly the same ScriptLine as the en-dash form whenever the
range is not itself part of a captured field value — here: the range
heads the block (so no label precedes it on its line) and the remainder
contains no en dash.  When the range text lands inside a captured value
(see the counterexample) the captured text keeps the glyph difference. -/
theorem claim_C7_amended :
    (∀ (b : Str) (r : Str × Str), searchRange enDash b = some r →
      timeMatch b = some r) ∧
    (∀ b : Str, searchRange enDash b = none → timeMatch b = searchRange '-' b) ∧
    (∀ t1 t2 rest : Str, t1 ≠ [] → t2 ≠ [] →
      (∀ c ∈ t1, isTimeChar c = true) → (∀ c ∈ t2, isTimeChar c = true) →
      enDash ∉ rest →
      mkLine ('[' :: (t1 ++ ' ' :: enDash :: ' ' :: (t2 ++ ']' :: rest))) =
        mkLine ('[' :: (t1 ++ ' ' :: '-' :: ' ' :: (t2 ++ ']' :: rest)))) := by
  refine ⟨?_, ?_, ?_⟩
  · intro b r h
    unfold timeMatch
    rw [h]
  · intro b h
    unfold timeMatch
    rw [h]
  · intro t1 t2 rest h1 h2 ht1 ht2 hrest
    have hTimeEn :
        timeMatch ('[' :: (t1 ++ ' ' :: enDash :: ' ' :: (t2 ++ ']' :: rest))) =
          some (t1, t2) := by
      unfold timeMatch
      rw [searchRange_cons_some (matchRangeHere_range enDash t1 t2 rest h1 h2 ht1 ht2)]
    have hTimeHy :
        timeMatch ('[' :: (t1 ++ ' ' :: '-' :: ' ' :: (t2 ++ ']' :: rest))) =
          some (t1, t2) := by
      unfold timeMatch
      rw [searchRange_none_of_no_sep (enDash_not_mem_block t1 t2 rest ht1 ht2 hrest)]
      exact searchRange_cons_some (matchRangeHere_range '-' t1 t2 rest h1 h2 ht1 ht2)
    rw [mkLine_of_timeMatch hTimeEn, mkLine_of_timeMatch hTimeHy]
    have key : ∀ (p0 : Char) (pr : Str), enDash.toLower ≠ p0.toLower →
        ('-').toLower ≠ p0.toLower →
        (('[').toLower ≠ p0.toLower ∧ (' ').toLower ≠ p0.toLower ∧
          (']').toLower ≠ p0.toLower) →
        (∀ c : Char, isTimeChar c = true → c.toLower ≠ p0.toLower) →
        searchField (p0 :: pr)
            ('[' :: (t1 ++ ' ' :: enDash :: ' ' :: (t2 ++ ']' :: rest))) =
          searchField (p0 :: pr)
            ('[' :: (t1 ++ ' ' :: '-' :: ' ' :: (t2 ++ ']' :: rest))) := by
      intro p0 pr hEnL hHyL hbr htc
      rw [searchField_block p0 pr enDash hEnL hbr htc t1 t2 rest ht1 ht2,
        searchField_block p0 pr '-' hHyL hbr htc t1 t2 rest ht1 ht2]
    have hSp : searchField speakerLab
          ('[' :: (t1 ++ ' ' :: enDash :: ' ' :: (t2 ++ ']' :: rest))) =
        searchField speakerLab
          ('[' :: (t1 ++ ' ' :: '-' :: ' ' :: (t2 ++ ']' :: rest))) :=
      key 'S' (("peaker:").toList) (by decide) (by decide)
        ⟨by decide, by decide, by decide⟩ (fun c hc => (isTimeChar_facts hc).1)
    have hMe : searchField meaningLab
          ('[' :: (t1 ++ ' ' :: enDash :: ' ' :: (t2 ++ ']' :: rest))) =
        searchField meaningLab
          ('[' :: (t1 ++ ' ' :: '-' :: ' ' :: (t2 ++ ']' :: rest))) :=
      key 'O' (("riginal Meaning:").toList) (by decide) (by decide)
        ⟨by decide, by decide, by decide⟩ (fun c hc => (isTimeChar_facts hc).2.1)
    have hEm : searchField emotionLab
          ('[' :: (t1 ++ ' ' :: enDash :: ' ' :: (t2 ++ ']' :: rest))) =
        searchField emotionLab
          ('[' :: (t1 ++ ' ' :: '-' :: ' ' :: (t2 ++ ']' :: rest))) :=
      key 'E' (("motion:").toList) (by decide) (by decide)
        ⟨by decide, by decide, by decide⟩ (fun c hc => (isTimeChar_facts hc).2.2.1)
    have hAc : searchField actionLab
          ('[' :: (t1 ++ ' ' :: enDash :: ' ' :: (t2 ++ ']' :: rest))) =
        searchField actionLab
          ('[' :: (t1 ++ ' ' :: '-' :: ' ' :: (t2 ++ ']' :: rest))) :=
      key 'A' (("ction Description:").toList) (by decide) (by decide)
        ⟨by decide, by decide, by decide⟩ (fun c hc => (isTimeChar_facts hc).2.2.2.1)
    have hS : searchField sLab
          ('[' :: (t1 ++ ' ' :: enDash :: ' ' :: (t2 ++ ']' :: rest))) =
        searchField sLab
          ('[' :: (t1 ++ ' ' :: '-' :: ' ' :: (t2 ++ ']' :: rest))) :=
      key 'S' ((":").toList) (by decide) (by decide)
        ⟨by decide, by decide, by decide⟩ (fun c hc => (isTimeChar_facts hc).1)
    have hT : searchField tLab
          ('[' :: (t1 ++ ' ' :: enDash :: ' ' :: (t2 ++ ']' :: rest))) =
        searchField tLab
          ('[' :: (t1 ++ ' ' :: '-' :: ' ' :: (t2 ++ ']' :: rest))) :=
      key 'T' ((":").toList) (by decide) (by decide)
        ⟨by decide, by decide, by decide⟩ (fun c hc => (isTimeChar_facts hc).2.2.2.2.1)
    have hL : searchField lLab
          ('[' :: (t1 ++ ' ' :: enDash :: ' ' :: (t2 ++ ']' :: rest))) =
        searchField lLab
          ('[' :: (t1 ++ ' ' :: '-' :: ' ' :: (t2 ++ ']' :: rest))) :=
      key 'L' ((":").toList) (by decide) (by decide)
        ⟨by decide, by decide, by decide⟩ (fun c hc => (isTimeChar_facts hc).2.2.2.2.2)
    unfold extractLine
    rw [hSp, hMe, hEm, hAc, hS, hT, hL]

theorem claim_C7_witness :
    mkLine ('[' :: ((("0").toList) ++ ' ' :: enDash :: ' ' ::
        ((("0").toList) ++ ']' :: (("\nS: hi").toList)))) =
      mkLine ('[' :: ((("0").toList) ++ ' ' :: '-' :: ' ' ::
        ((("0").toList) ++ ']' :: (("\nS: hi").toList)))) :=
  claim_C7_amended.2.2 (("0").toList) (("0").toList) (("\nS: hi").toList)
    (by decide) (by decide) (by decide) (by decide) (by decide)

end KuralDub
